import Mathlib

/-!
Shallow embedding of `wagtail/wagtailcore/blocks/struct_block.py`
(`BaseStructBlock`, `StructBlock`, `StructValue`).

Modelling conventions:
* Python dynamic values are a type parameter `V`.
* Python `dict` / `collections.OrderedDict` are association lists
  `List (String × V)`; keys produced by the code are unique (they come from
  a dict's `.items()`), and key update on an existing key keeps its position
  (`odSet` below mirrors `OrderedDict.__setitem__`).
* Child blocks (instances of `Block` subclasses, living outside this file's
  source) are records of their externally-visible operations, exactly the
  contract `BaseStructBlock` uses: `meta.default`, `clean`, `to_python`,
  `get_prep_value`, `get_searchable_content`, `render_form`,
  `value_from_datadict`, `set_name`.
* Raised exceptions become `Except`: Django `ValidationError` and the
  uncaught `KeyError` of `self.child_blocks[name]` are the error cases of
  `clean` / `get_prep_value`; the `TypeError` of `render_form` is its error
  case.
* `format_html` / `format_html_join` are modelled as string interpolation by
  concatenation (HTML escaping is not modelled; no claim depends on it).
-/

namespace Wagtail

/-- Django `ValidationError` as used by this module: a message plus a
`params` payload, which for struct blocks maps field names to error lists. -/
inductive ValError where
  | mk (message : String) (params : List (String × List ValError))

/-- `django.forms.utils.ErrorList`: a list of validation errors. -/
abbrev ErrorList := List ValError

/-- `params` of a `ValError`. -/
def ValError.params : ValError → List (String × ErrorList)
  | .mk _ p => p

/-- `message` of a `ValError`. -/
def ValError.message : ValError → String
  | .mk m _ => m

/-- Form submission data (`data` / `files` in Django): flat key-value maps. -/
abbrev DataDict := List (String × String)

/-- The child-block contract used by `BaseStructBlock`: the operations of a
`Block` instance that this module calls on its children. -/
structure ChildBlock (V : Type) where
  name : String
  meta_default : V
  clean : V → Except ValError V
  to_python : V → V
  get_prep_value : V → V
  get_searchable_content : V → List String
  render_form : V → String → Option ErrorList → String
  value_from_datadict : DataDict → DataDict → String → V

/-- `Block.set_name` (defined in `blocks/base.py`, outside this source file).
Modelled from the spec: every child must support `set_name`, which records
the field's name on the block. -/
def ChildBlock.set_name {V : Type} (b : ChildBlock V) (n : String) : ChildBlock V :=
  { b with name := n }

/-- Python `dict.get(name, default)` on an association list. -/
def dictGet {V : Type} (d : List (String × V)) (n : String) (dflt : V) : V :=
  match d.lookup n with
  | some v => v
  | none => dflt

/-- `OrderedDict.__setitem__`: updating an existing key keeps its original
position; a new key is appended at the end. -/
def odSet {V : Type} : List (String × V) → String → V → List (String × V)
  | [], k, v => [(k, v)]
  | (k₁, v₁) :: rest, k, v =>
    if k₁ = k then (k, v) :: rest else (k₁, v₁) :: odSet rest k v

/-- The struct descriptor after `BaseStructBlock.__init__` has run:
`child_blocks` (an ordered name → child-block mapping), the stored
`_constructor_kwargs`, and the label taken from the block's meta
(set up by `Block.__init__` from the kwargs, outside this source file). -/
structure StructBlock (V : Type) where
  child_blocks : List (String × ChildBlock V)
  constructor_kwargs : List (String × String)
  label : Option String
  dependencies : List (ChildBlock V)

/-- `BaseStructBlock.__init__(local_blocks, **kwargs)`: store the kwargs,
take a copy of `base_blocks`, then for each `(name, block)` in
`local_blocks` run `block.set_name(name)` and insert it under `name`
(dict assignment: last write wins, original position kept).
`dependencies` is `child_blocks.values()`. The label comes from the kwargs
via `Block.__init__` (outside this source file) and is passed explicitly. -/
def structInit {V : Type} (base_blocks : List (String × ChildBlock V))
    (local_blocks : List (String × ChildBlock V))
    (kwargs : List (String × String)) (label : Option String) : StructBlock V :=
  let child_blocks :=
    local_blocks.foldl (fun d p => odSet d p.1 (p.2.set_name p.1)) base_blocks
  { child_blocks := child_blocks
    constructor_kwargs := kwargs
    label := label
    dependencies := child_blocks.map Prod.snd }

/-- `StructValue`: an ordered mapping from field name to resolved value,
with a back-reference to its descriptor. -/
structure StructValue (V : Type) where
  block : StructBlock V
  items : List (String × V)

/-- A bound block: `Block.bind` (outside this source file) pairs a child
block with a value. Modelled from the spec: the "bound field" pairing of
(field definition, value); `StructValue.bound_blocks` passes `self.get(name)`,
whose Python result is the value or `None`, hence `Option V`. -/
structure BoundBlock (V : Type) where
  child : ChildBlock V
  value : Option V

/-- `ChildBlock.bind`: pair the block with the given value. -/
def ChildBlock.bind {V : Type} (b : ChildBlock V) (v : Option V) : BoundBlock V :=
  ⟨b, v⟩

/-- `StructValue.bound_blocks` (the body of the `cached_property`):
one pass over the descriptor's `child_blocks` in order, binding each child
to `self.get(name)` — Python `dict.get` with no default, i.e. `None`
(`Option.none`) when the name is absent from the value. -/
def StructValue.bound_blocks {V : Type} (sv : StructValue V) :
    List (String × BoundBlock V) :=
  sv.block.child_blocks.map fun p => (p.1, p.2.bind (sv.items.lookup p.1))

/-- Error outcome of `BaseStructBlock.clean`: either the uncaught `KeyError`
from `self.child_blocks[name]` (the input value had a key that is not a
declared child), or the aggregated `ValidationError`. -/
inductive CleanErr where
  | keyError (name : String)
  | validationError (e : ValError)

/-- The loop of `BaseStructBlock.clean`: iterate the input value's own
entries in order; for each, look up the child block (`KeyError` aborts the
whole call), run its `clean`, and route the outcome into the `result`
mapping or the `errors` mapping (a caught `ValidationError` never stops the
iteration). -/
def cleanLoop {V : Type} (cb : List (String × ChildBlock V)) :
    List (String × V) → Except String (List (String × V) × List (String × ErrorList))
  | [] => .ok ([], [])
  | (n, v) :: rest =>
    match cb.lookup n with
    | none => .error n
    | some child =>
      match child.clean v with
      | .ok r =>
        match cleanLoop cb rest with
        | .error k => .error k
        | .ok (res, errs) => .ok ((n, r) :: res, errs)
      | .error e =>
        match cleanLoop cb rest with
        | .error k => .error k
        | .ok (res, errs) => .ok (res, (n, [e]) :: errs)

/-- `BaseStructBlock.clean(value)`: run the loop; if any field collected an
error, raise one aggregated `ValidationError` whose `params` is the
name → error-list mapping; otherwise return the mapping of cleaned values. -/
def StructBlock.clean {V : Type} (sb : StructBlock V) (value : List (String × V)) :
    Except CleanErr (List (String × V)) :=
  match cleanLoop sb.child_blocks value with
  | .error n => .error (.keyError n)
  | .ok (result, errors) =>
    if errors.isEmpty then .ok result
    else .error (.validationError (.mk "Validation error in StructBlock" errors))

/-- Error outcome of `BaseStructBlock.render_form`: the `TypeError` raised
when more than one error object is supplied. -/
inductive RenderError where
  | typeError (msg : String)
deriving DecidableEq

/-- The `child_renderings` list comprehension of `render_form`: each child in
declaration order renders `value.get(name, block.meta.default)` under prefix
`"{prefix}-{name}"` with `errors=error_dict.get(name)` (Python `dict.get`,
`None` when absent). -/
def renderFormChildren {V : Type} (sb : StructBlock V) (value : List (String × V))
    (pfx : String) (error_dict : List (String × ErrorList)) : List String :=
  sb.child_blocks.map fun p =>
    p.2.render_form (dictGet value p.1 p.2.meta_default) (pfx ++ "-" ++ p.1)
      (error_dict.lookup p.1)

/-- The tail of `render_form` after `error_dict` is known: wrap the child
renderings in `<li>` items joined by newlines, inside the struct container,
with the label when one is set. -/
def renderFormHtml {V : Type} (sb : StructBlock V) (value : List (String × V))
    (pfx : String) (error_dict : List (String × ErrorList)) : String :=
  let list_items := String.intercalate "\n"
    ((renderFormChildren sb value pfx error_dict).map fun r => "<li>" ++ r ++ "</li>")
  match sb.label with
  | some lbl =>
    "<div class=\"struct-block\"><label>" ++ lbl ++ "</label> <ul>" ++ list_items
      ++ "</ul></div>"
  | none => "<div class=\"struct-block\"><ul>" ++ list_items ++ "</ul></div>"

/-- `BaseStructBlock.render_form(value, prefix, errors)`: with no errors,
`error_dict = {}`; with exactly one, `error_dict = errors.as_data()[0].params`;
with more than one, raise `TypeError`. -/
def StructBlock.render_form {V : Type} (sb : StructBlock V)
    (value : List (String × V)) (pfx : String) (errors : ErrorList) :
    Except RenderError String :=
  match errors with
  | [] => .ok (renderFormHtml sb value pfx [])
  | [e] => .ok (renderFormHtml sb value pfx e.params)
  | _ => .error (.typeError "StructBlock.render_form unexpectedly received multiple errors")

/-- `BaseStructBlock.value_from_datadict(data, files, prefix)`: a fresh
`StructValue` with one entry per child in declaration order, each parsed
under the namespaced prefix `"{prefix}-{name}"`. -/
def StructBlock.value_from_datadict {V : Type} (sb : StructBlock V)
    (data files : DataDict) (pfx : String) : StructValue V :=
  ⟨sb, sb.child_blocks.map fun p =>
    (p.1, p.2.value_from_datadict data files (pfx ++ "-" ++ p.1))⟩

/-- `BaseStructBlock.to_python(value)`: recursively call `to_python` on the
children, substituting `child_block.meta.default` when the name is absent
from the input, and return a `StructValue`. -/
def StructBlock.to_python {V : Type} (sb : StructBlock V)
    (value : List (String × V)) : StructValue V :=
  ⟨sb, sb.child_blocks.map fun p =>
    (p.1, p.2.to_python (dictGet value p.1 p.2.meta_default))⟩

/-- The comprehension of `BaseStructBlock.get_prep_value`: walk the input
value's own entries in order, calling `self.child_blocks[name].get_prep_value`
on each; the subscript raises `KeyError` (the error case, carrying the
offending key) at the first entry whose key is not a declared child. -/
def prepItems {V : Type} (cb : List (String × ChildBlock V)) :
    List (String × V) → Except String (List (String × V))
  | [] => .ok []
  | (n, v) :: rest =>
    match cb.lookup n with
    | none => .error n
    | some child =>
      match prepItems cb rest with
      | .error k => .error k
      | .ok xs => .ok ((n, child.get_prep_value v) :: xs)

/-- `BaseStructBlock.get_prep_value(value)`: a dict comprehension over the
input value's own entries (`value.items()`), not over the declared children.
Returns a plain mapping, not a `StructValue`. -/
def StructBlock.get_prep_value {V : Type} (sb : StructBlock V)
    (value : List (String × V)) : Except String (List (String × V)) :=
  prepItems sb.child_blocks value

/-- `BaseStructBlock.get_searchable_content(value)`: extend a list with each
child's searchable content in declaration order, substituting
`block.meta.default` when the name is absent from the input. -/
def StructBlock.get_searchable_content {V : Type} (sb : StructBlock V)
    (value : List (String × V)) : List String :=
  (sb.child_blocks.map fun p =>
    p.2.get_searchable_content (dictGet value p.1 p.2.meta_default)).flatten

/-- `BaseStructBlock.deconstruct()`: always the hard-coded base path
`wagtail.wagtailcore.blocks.StructBlock`, the full `child_blocks.items()`
list, and the stored constructor kwargs. -/
def StructBlock.deconstruct {V : Type} (sb : StructBlock V) :
    String × List (String × ChildBlock V) × List (String × String) :=
  ("wagtail.wagtailcore.blocks.StructBlock", sb.child_blocks, sb.constructor_kwargs)

/-- A `StructBlock` subclass with declaratively-defined fields.
Modelled from the spec: `DeclarativeSubBlocksMetaclass` (defined in
`blocks/base.py`, outside this source file) collects the class-level field
declarations, in declaration order, into the subclass's `base_blocks`;
construction then proceeds through `BaseStructBlock.__init__` exactly as for
the base type. -/
def structSubclassInit {V : Type} (declared_blocks : List (String × ChildBlock V))
    (local_blocks : List (String × ChildBlock V))
    (kwargs : List (String × String)) (label : Option String) : StructBlock V :=
  structInit declared_blocks local_blocks kwargs label

/-! ### Specification-side characterisations (used only in theorem statements) -/

/-- The entries of the input whose child validated successfully, with their
cleaned values (a characterisation of the `result` mapping of `clean`). -/
def cleanSuccessesSpec {V : Type} (cb : List (String × ChildBlock V))
    (value : List (String × V)) : List (String × V) :=
  value.filterMap fun p =>
    match cb.lookup p.1 with
    | some c =>
      match c.clean p.2 with
      | .ok r => some (p.1, r)
      | .error _ => none
    | none => none

/-- The entries of the input whose child raised a validation error, each
paired with the one-element error list `ErrorList([e])` (a characterisation
of the `errors` payload of `clean`). -/
def cleanFailuresSpec {V : Type} (cb : List (String × ChildBlock V))
    (value : List (String × V)) : List (String × ErrorList) :=
  value.filterMap fun p =>
    match cb.lookup p.1 with
    | some c =>
      match c.clean p.2 with
      | .error e => some (p.1, [e])
      | .ok _ => none
    | none => none

/-- The `bound_blocks` mapping as the specification words it: each field
definition paired with the instance's resolved value "or the field's default
if absent". Stated for comparison with `StructValue.bound_blocks`, which
passes `self.get(name)` (i.e. `None` when absent) instead. -/
def boundBlocksClaimed {V : Type} (sv : StructValue V) :
    List (String × BoundBlock V) :=
  sv.block.child_blocks.map fun p =>
    (p.1, p.2.bind (some (dictGet sv.items p.1 p.2.meta_default)))

/-- The storage-ready mapping produced by `get_prep_value` on the output of
`to_python` (used to state the normalisation round trip). -/
def prepRoundtrip {V : Type} (sb : StructBlock V) (value : List (String × V)) :
    List (String × V) :=
  sb.child_blocks.map fun p =>
    (p.1, p.2.get_prep_value (p.2.to_python (dictGet value p.1 p.2.meta_default)))

/-! ### Association-list lemmas -/

theorem lookup_map_keyed {α β : Type} (f : String → α → β) :
    ∀ (l : List (String × α)) (n : String),
      (l.map fun p => (p.1, f p.1 p.2)).lookup n = (l.lookup n).map (f n) := by
  intro l n
  induction l with
  | nil => rfl
  | cons p t ih =>
    obtain ⟨k, v⟩ := p
    by_cases hk : n = k
    · subst hk
      simp [List.lookup]
    · simp only [List.map_cons, List.lookup]
      rw [beq_false_of_ne hk, ih]

theorem lookup_eq_some_of_mem_nodup {α : Type} {l : List (String × α)}
    {n : String} {c : α} (hn : (l.map Prod.fst).Nodup) (hm : (n, c) ∈ l) :
    l.lookup n = some c := by
  induction l with
  | nil => cases hm
  | cons p t ih =>
    obtain ⟨k, v⟩ := p
    simp only [List.map_cons, List.nodup_cons] at hn
    rcases List.mem_cons.mp hm with heq | ht
    · cases heq
      simp [List.lookup]
    · have hne : n ≠ k := by
        intro h
        exact hn.1 (h ▸ (List.mem_map.mpr ⟨(n, c), ht, rfl⟩))
      simp only [List.lookup]
      rw [beq_false_of_ne hne]
      exact ih hn.2 ht

theorem lookup_none_iff {α : Type} (l : List (String × α)) (n : String) :
    l.lookup n = none ↔ n ∉ l.map Prod.fst := by
  induction l with
  | nil => simp
  | cons p t ih =>
    obtain ⟨k, v⟩ := p
    by_cases hk : n = k
    · subst hk
      simp [List.lookup]
    · simp only [List.lookup, List.map_cons, List.mem_cons]
      rw [beq_false_of_ne hk]
      simp [ih, hk]

theorem keyed_nodup_eq {α : Type} {l : List (String × α)}
    (hn : (l.map Prod.fst).Nodup) {p q : String × α}
    (hp : p ∈ l) (hq : q ∈ l) (hk : p.1 = q.1) : p = q := by
  have hp1 := lookup_eq_some_of_mem_nodup (n := p.1) (c := p.2) hn (by simpa using hp)
  have hq1 := lookup_eq_some_of_mem_nodup (n := q.1) (c := q.2) hn (by simpa using hq)
  rw [hk] at hp1
  rw [hp1] at hq1
  have h2 : p.2 = q.2 := by injection hq1
  exact Prod.ext hk h2

/-! ### Lemmas about the `clean` loop -/

theorem cleanLoop_eq_spec {V : Type} (cb : List (String × ChildBlock V)) :
    ∀ (value : List (String × V)),
      (∀ p ∈ value, (cb.lookup p.1).isSome) →
      cleanLoop cb value = .ok (cleanSuccessesSpec cb value, cleanFailuresSpec cb value) := by
  intro value h
  induction value with
  | nil => rfl
  | cons p t ih =>
    obtain ⟨n, v⟩ := p
    have hh := h (n, v) (List.mem_cons_self _ _)
    have ht : ∀ q ∈ t, (cb.lookup q.1).isSome := fun q hq => h q (List.mem_cons_of_mem _ hq)
    obtain ⟨child, hc⟩ := Option.isSome_iff_exists.mp hh
    simp only [cleanLoop, cleanSuccessesSpec, cleanFailuresSpec, List.filterMap_cons, hc,
      ih ht]
    cases child.clean v <;> simp [cleanSuccessesSpec, cleanFailuresSpec]

theorem cleanLoop_keyError {V : Type} (cb : List (String × ChildBlock V)) :
    ∀ (value : List (String × V)) (q : String × V),
      value.find? (fun p => (cb.lookup p.1).isNone) = some q →
      cleanLoop cb value = .error q.1 := by
  intro value
  induction value with
  | nil => intro q h; cases h
  | cons p t ih =>
    intro q h
    obtain ⟨n, v⟩ := p
    by_cases hn : (cb.lookup n).isNone
    · have hq : q = (n, v) := by
        rw [List.find?_cons_of_pos _ (by simpa using hn)] at h
        injection h with heq
        exact heq.symm
      subst hq
      simp only [cleanLoop, Option.isNone_iff_eq_none.mp hn]
    · rw [List.find?_cons_of_neg _ (by simpa using hn)] at h
      cases hc : cb.lookup n with
      | none => rw [hc] at hn; simp at hn
      | some child =>
        simp only [cleanLoop, hc, ih q h]
        cases child.clean v <;> rfl

theorem cleanLoop_ok_keys {V : Type} (cb : List (String × ChildBlock V)) :
    ∀ (value : List (String × V)) (res : List (String × V)),
      cleanLoop cb value = .ok (res, []) →
      res.map Prod.fst = value.map Prod.fst := by
  intro value
  induction value with
  | nil =>
    intro res h
    simp only [cleanLoop] at h
    injection h with h
    injection h with h1 h2
    simp [← h1]
  | cons p t ih =>
    intro res h
    obtain ⟨n, v⟩ := p
    simp only [cleanLoop] at h
    cases hc : cb.lookup n with
    | none =>
      rw [hc] at h
      exact Except.noConfusion h
    | some child =>
      simp only [hc] at h
      cases hcl : child.clean v with
      | ok r =>
        simp only [hcl] at h
        cases hrest : cleanLoop cb t with
        | error k =>
          simp only [hrest] at h
          exact Except.noConfusion h
        | ok pr =>
          obtain ⟨res₀, errs₀⟩ := pr
          simp only [hrest] at h
          injection h with h
          injection h with h1 h2
          subst h2
          rw [← h1]
          simp [ih res₀ hrest]
      | error e =>
        simp only [hcl] at h
        cases hrest : cleanLoop cb t with
        | error k =>
          simp only [hrest] at h
          exact Except.noConfusion h
        | ok pr =>
          obtain ⟨res₀, errs₀⟩ := pr
          simp only [hrest] at h
          injection h with h
          injection h with h1 h2
          exact List.noConfusion h2

/-! ### Lemmas about the `get_prep_value` comprehension -/

theorem prepItems_keys {V : Type} (cb : List (String × ChildBlock V)) :
    ∀ (value res : List (String × V)),
      prepItems cb value = .ok res →
      res.map Prod.fst = value.map Prod.fst := by
  intro value
  induction value with
  | nil =>
    intro res h
    simp only [prepItems] at h
    injection h with h
    simp [← h]
  | cons p t ih =>
    intro res h
    obtain ⟨n, v⟩ := p
    simp only [prepItems] at h
    cases hc : cb.lookup n with
    | none =>
      rw [hc] at h
      exact Except.noConfusion h
    | some child =>
      simp only [hc] at h
      cases hrest : prepItems cb t with
      | error k =>
        simp only [hrest] at h
        exact Except.noConfusion h
      | ok xs =>
        simp only [hrest] at h
        injection h with h
        rw [← h]
        simp [ih xs hrest]

theorem prepItems_keyed_map {V : Type} (cb : List (String × ChildBlock V))
    (f : String → ChildBlock V → V) :
    ∀ (l : List (String × ChildBlock V)),
      (∀ p ∈ l, cb.lookup p.1 = some p.2) →
      prepItems cb (l.map fun p => (p.1, f p.1 p.2)) =
        .ok (l.map fun p => (p.1, p.2.get_prep_value (f p.1 p.2))) := by
  intro l h
  induction l with
  | nil => rfl
  | cons p t ih =>
    obtain ⟨n, c⟩ := p
    have hh := h (n, c) (List.mem_cons_self _ _)
    have ht : ∀ q ∈ t, cb.lookup q.1 = some q.2 := fun q hq => h q (List.mem_cons_of_mem _ hq)
    simp only [List.map_cons, prepItems, hh, ih ht]

/-! ### Lemmas about `OrderedDict` key update -/

theorem odSet_keys_of_mem {V : Type} :
    ∀ (d : List (String × V)) (k : String) (v : V),
      k ∈ d.map Prod.fst → (odSet d k v).map Prod.fst = d.map Prod.fst := by
  intro d k v h
  induction d with
  | nil => cases h
  | cons p t ih =>
    obtain ⟨k₁, v₁⟩ := p
    by_cases hk : k₁ = k
    · subst hk
      simp [odSet]
    · simp only [odSet, if_neg hk, List.map_cons]
      simp only [List.map_cons, List.mem_cons] at h
      rcases h with h | h
      · exact absurd h.symm hk
      · rw [ih h]

theorem odSet_lookup_self {V : Type} :
    ∀ (d : List (String × V)) (k : String) (v : V),
      (odSet d k v).lookup k = some v := by
  intro d k v
  induction d with
  | nil => simp [odSet, List.lookup]
  | cons p t ih =>
    obtain ⟨k₁, v₁⟩ := p
    by_cases hk : k₁ = k
    · subst hk
      simp [odSet, List.lookup]
    · simp only [odSet, if_neg hk, List.lookup]
      rw [beq_false_of_ne (Ne.symm hk)]
      exact ih

theorem odSet_lookup_other {V : Type} :
    ∀ (d : List (String × V)) (k m : String) (v : V), m ≠ k →
      (odSet d k v).lookup m = d.lookup m := by
  intro d k m v hm
  induction d with
  | nil => simp [odSet, List.lookup, beq_false_of_ne hm]
  | cons p t ih =>
    obtain ⟨k₁, v₁⟩ := p
    by_cases hk : k₁ = k
    · subst hk
      simp only [odSet, if_pos rfl, List.lookup]
      rw [beq_false_of_ne hm]
    · simp only [odSet, if_neg hk, List.lookup]
      cases hmk : m == k₁
      · exact ih
      · rfl

/-! ### Concrete instances used by witnesses and counterexamples -/

/-- A concrete integer-valued child block for witnesses: default `d`,
validation rejects negative values, `to_python` and `get_prep_value` are
identities, rendering and parsing are simple deterministic functions. -/
def intChild (d : Int) : ChildBlock Int :=
  { name := ""
    meta_default := d
    clean := fun v => if v < 0 then .error (.mk "negative" []) else .ok v
    to_python := fun v => v
    get_prep_value := fun v => v
    get_searchable_content := fun v => [toString v]
    render_form := fun v pfx errs =>
      pfx ++ "=" ++ toString v ++
        (match errs with
         | some es => "[" ++ toString es.length ++ "]"
         | none => "")
    value_from_datadict := fun data _ key => Int.ofNat (dictGet data key "").length }

/-- A concrete two-field struct for witnesses: field `a` (default 7) then
field `b` (default 5), in that declaration order. -/
def sbAB : StructBlock Int :=
  structInit [("a", intChild 7), ("b", intChild 5)] [] [("required", "False")] (some "Author")

/-! ### Claim theorems -/

/-- Claim C1: with every input key naming a declared child (the implicit key
contract, claim C10) and distinct input keys, `clean` attempts every field
entry independently: if any field fails, `clean` fails with a single
aggregated validation error whose `params` payload maps exactly the failing
field names to their own error lists (fields that validated successfully are
absent from the payload); if no field fails, `clean` returns the mapping of
validated values. -/
theorem clean_validates_independently_and_aggregates {V : Type} (sb : StructBlock V)
    (value : List (String × V))
    (hdecl : ∀ p ∈ value, (sb.child_blocks.lookup p.1).isSome)
    (hkeys : (value.map Prod.fst).Nodup) :
    (cleanFailuresSpec sb.child_blocks value = [] →
      sb.clean value = .ok (cleanSuccessesSpec sb.child_blocks value)) ∧
    (cleanFailuresSpec sb.child_blocks value ≠ [] →
      sb.clean value = .error (.validationError
        (.mk "Validation error in StructBlock" (cleanFailuresSpec sb.child_blocks value)))) ∧
    (∀ p ∈ value, ∀ c r, sb.child_blocks.lookup p.1 = some c → c.clean p.2 = .ok r →
      p.1 ∉ (cleanFailuresSpec sb.child_blocks value).map Prod.fst) := by
  have hloop := cleanLoop_eq_spec sb.child_blocks value hdecl
  refine ⟨?_, ?_, ?_⟩
  · intro hf
    simp [StructBlock.clean, hloop, hf]
  · intro hf
    cases hfl : cleanFailuresSpec sb.child_blocks value with
    | nil => exact absurd hfl hf
    | cons a t =>
      rw [hfl] at hloop
      simp [StructBlock.clean, hloop, ← hfl]
      exact hf
  · intro p hp c r hc hr hmem
    obtain ⟨q₁, hq₁, hfst⟩ := List.mem_map.mp hmem
    obtain ⟨q, hqv, hfq⟩ := List.mem_filterMap.mp hq₁
    cases hlq : sb.child_blocks.lookup q.1 with
    | none =>
      simp only [hlq] at hfq
      exact Option.noConfusion hfq
    | some c₀ =>
      simp only [hlq] at hfq
      cases hcl : c₀.clean q.2 with
      | ok r₀ =>
        simp only [hcl] at hfq
        exact Option.noConfusion hfq
      | error e =>
        simp only [hcl] at hfq
        injection hfq with hfq
        have hq1 : p.1 = q.1 := by rw [← hfst, ← hfq]
        have hpq : p = q := keyed_nodup_eq hkeys hp hqv hq1
        rw [← hpq] at hlq hcl
        rw [hc] at hlq
        have hcc : c = c₀ := by injection hlq
        rw [← hcc] at hcl
        rw [hr] at hcl
        exact Except.noConfusion hcl

/-- Witness for C1 on the concrete struct `sbAB`: `{a: 3, b: -1}` fails with
the aggregated error whose payload maps only `b`; `{a: 3, b: 2}` succeeds. -/
theorem clean_validates_independently_and_aggregates_witness :
    sbAB.clean [("a", (3 : Int)), ("b", -1)] =
      .error (.validationError (.mk "Validation error in StructBlock"
        (cleanFailuresSpec sbAB.child_blocks [("a", (3 : Int)), ("b", -1)]))) ∧
    cleanFailuresSpec sbAB.child_blocks [("a", (3 : Int)), ("b", -1)] =
      [("b", [ValError.mk "negative" []])] ∧
    sbAB.clean [("a", (3 : Int)), ("b", 2)] =
      .ok (cleanSuccessesSpec sbAB.child_blocks [("a", (3 : Int)), ("b", 2)]) := by
  have hfl : cleanFailuresSpec sbAB.child_blocks [("a", (3 : Int)), ("b", -1)] =
      [("b", [ValError.mk "negative" []])] := rfl
  refine ⟨?_, hfl, ?_⟩
  · exact (clean_validates_independently_and_aggregates sbAB [("a", (3 : Int)), ("b", -1)]
      (by decide) (by decide)).2.1 (by rw [hfl]; intro h; exact List.noConfusion h)
  · exact (clean_validates_independently_and_aggregates sbAB [("a", (3 : Int)), ("b", 2)]
      (by decide) (by decide)).1 rfl

/-- Claim C10: `clean` iterates the input value's own entries, so its
guarantees hold only under the key contract: an entry whose name is not a
declared child causes an uncaught `KeyError` (the first such entry aborts
the call), and a declared field absent from the input is not validated and
is absent from a successful result (result keys equal input keys). -/
theorem clean_key_contract {V : Type} (sb : StructBlock V) (value : List (String × V)) :
    (∀ q, value.find? (fun p => (sb.child_blocks.lookup p.1).isNone) = some q →
      sb.clean value = .error (.keyError q.1)) ∧
    (∀ res, sb.clean value = .ok res → res.map Prod.fst = value.map Prod.fst) ∧
    (∀ n c res, (n, c) ∈ sb.child_blocks → n ∉ value.map Prod.fst →
      sb.clean value = .ok res → n ∉ res.map Prod.fst) := by
  have hok : ∀ res, sb.clean value = .ok res → res.map Prod.fst = value.map Prod.fst := by
    intro res h
    cases hloop : cleanLoop sb.child_blocks value with
    | error k =>
      simp only [StructBlock.clean, hloop] at h
      exact Except.noConfusion h
    | ok pr =>
      obtain ⟨res₀, errs₀⟩ := pr
      simp only [StructBlock.clean, hloop] at h
      cases hae : errs₀.isEmpty with
      | false => rw [hae] at h; exact Except.noConfusion h
      | true =>
        rw [hae] at h
        injection h with h
        rw [← h]
        exact cleanLoop_ok_keys sb.child_blocks value res₀
          (by rw [hloop, List.isEmpty_iff.mp hae])
  refine ⟨?_, hok, ?_⟩
  · intro q hq
    simp [StructBlock.clean, cleanLoop_keyError sb.child_blocks value q hq]
  · intro n c res _ habs h
    rw [hok res h]
    exact habs

/-- Witness for C10 on `sbAB`: the undeclared key `z` aborts `clean` with a
`KeyError`, and a successful `clean` of `{a: 3}` keeps exactly the input key
`a` (the declared field `b` is absent from the result). -/
theorem clean_key_contract_witness :
    sbAB.clean [("z", (1 : Int))] = .error (.keyError "z") ∧
    [("a", (3 : Int))].map Prod.fst = [("a", (3 : Int))].map Prod.fst := by
  refine ⟨(clean_key_contract sbAB [("z", (1 : Int))]).1 ("z", 1) rfl, ?_⟩
  exact (clean_key_contract sbAB [("a", (3 : Int))]).2.1 [("a", 3)] rfl

/-- Claim C2: `render_form` given more than one top-level error object raises
a `TypeError` (a programming-error condition, not a validation failure)
instead of rendering. -/
theorem render_form_multiple_errors {V : Type} (sb : StructBlock V)
    (value : List (String × V)) (pfx : String) (errors : ErrorList)
    (h : 1 < errors.length) :
    sb.render_form value pfx errors =
      .error (.typeError "StructBlock.render_form unexpectedly received multiple errors") := by
  cases errors with
  | nil => exact absurd h (by decide)
  | cons e t =>
    cases t with
    | nil => exact absurd h (by simp)
    | cons e₂ t₂ => rfl

/-- Witness for C2: two top-level error objects yield the `TypeError`. -/
theorem render_form_multiple_errors_witness :
    sbAB.render_form [] "p" [ValError.mk "x" [], ValError.mk "y" []] =
      .error (.typeError "StructBlock.render_form unexpectedly received multiple errors") :=
  render_form_multiple_errors sbAB [] "p" [ValError.mk "x" [], ValError.mk "y" []] (by decide)

/-- Claim C9: with exactly one aggregated error object, `render_form`
renders (no `TypeError`) one form fragment per child field, in declaration
order, each under the namespaced prefix `"{prefix}-{name}"`, and each child
fragment receives exactly its own name's entry from the error payload
(`Option.none`, i.e. no errors, for children without an entry). -/
theorem render_form_single_error_distributes {V : Type} (sb : StructBlock V)
    (value : List (String × V)) (pfx : String) (m : String)
    (params : List (String × ErrorList)) :
    sb.render_form value pfx [ValError.mk m params] =
      .ok (renderFormHtml sb value pfx params) ∧
    (renderFormChildren sb value pfx params).length = sb.child_blocks.length ∧
    (∀ i, (renderFormChildren sb value pfx params).get? i =
      (sb.child_blocks.get? i).map fun p =>
        p.2.render_form (dictGet value p.1 p.2.meta_default) (pfx ++ "-" ++ p.1)
          (params.lookup p.1)) := by
  refine ⟨rfl, by simp [renderFormChildren], ?_⟩
  intro i
  simp [renderFormChildren]

/-- Claim C3: when every child satisfies the normalisation round trip
`to_python (get_prep_value (to_python w)) = to_python w` and the declared
field names are distinct, the struct does too:
`get_prep_value (to_python v)` succeeds and feeding its output back through
`to_python` reproduces `to_python v`. -/
theorem to_python_get_prep_value_roundtrip {V : Type} (sb : StructBlock V)
    (v : List (String × V))
    (hn : (sb.child_blocks.map Prod.fst).Nodup)
    (hc : ∀ p ∈ sb.child_blocks, ∀ w,
      p.2.to_python (p.2.get_prep_value (p.2.to_python w)) = p.2.to_python w) :
    sb.get_prep_value (sb.to_python v).items = .ok (prepRoundtrip sb v) ∧
    sb.to_python (prepRoundtrip sb v) = sb.to_python v := by
  have hdecl : ∀ p ∈ sb.child_blocks, sb.child_blocks.lookup p.1 = some p.2 := by
    intro p hp
    exact lookup_eq_some_of_mem_nodup (n := p.1) (c := p.2) hn (by simpa using hp)
  constructor
  · exact prepItems_keyed_map sb.child_blocks
      (fun n c => c.to_python (dictGet v n c.meta_default)) sb.child_blocks hdecl
  · unfold StructBlock.to_python
    congr 1
    apply List.map_congr_left
    intro p hp
    have hlk : (prepRoundtrip sb v).lookup p.1 =
        some (p.2.get_prep_value (p.2.to_python (dictGet v p.1 p.2.meta_default))) := by
      unfold prepRoundtrip
      rw [lookup_map_keyed (fun n c => c.get_prep_value (c.to_python (dictGet v n c.meta_default)))
        sb.child_blocks p.1, hdecl p hp]
      rfl
    have hdg : dictGet (prepRoundtrip sb v) p.1 p.2.meta_default =
        p.2.get_prep_value (p.2.to_python (dictGet v p.1 p.2.meta_default)) := by
      unfold dictGet
      rw [hlk]
      rfl
    rw [hdg, hc p hp]

/-- Witness for C3 on `sbAB` (whose children are identities on values) at
the partial input `{a: 3}`. -/
theorem to_python_get_prep_value_roundtrip_witness :
    sbAB.get_prep_value (sbAB.to_python [("a", (3 : Int))]).items =
      .ok (prepRoundtrip sbAB [("a", (3 : Int))]) ∧
    sbAB.to_python (prepRoundtrip sbAB [("a", (3 : Int))]) = sbAB.to_python [("a", (3 : Int))] := by
  refine to_python_get_prep_value_roundtrip sbAB [("a", (3 : Int))] (by decide) ?_
  intro p hp w
  have hp₂ : p ∈ [("a", intChild 7), ("b", intChild 5)] := hp
  simp only [List.mem_cons, List.mem_singleton] at hp₂
  rcases hp₂ with rfl | rfl | h
  · rfl
  · rfl
  · cases h

/-- Counterexample to C4 as stated: on `sbAB` (declaration order `a, b`),
`get_prep_value` of the input `{b: 1, a: 2}` returns its entries in the
input's order `b, a`, not in declaration order. -/
theorem get_prep_value_order_counterexample :
    sbAB.child_blocks.map Prod.fst = ["a", "b"] ∧
    sbAB.get_prep_value [("b", (1 : Int)), ("a", 2)] = .ok [("b", 1), ("a", 2)] ∧
    [("b", (1 : Int)), ("a", 2)].map Prod.fst ≠ sbAB.child_blocks.map Prod.fst := by
  exact ⟨rfl, rfl, by decide⟩

/-- Claim C4 (amended): `value_from_datadict`, `to_python`,
`get_searchable_content` and `bound_blocks` produce declaration order for
any input; `get_prep_value` (a plain mapping, not a struct value) preserves
its input's key order, hence declaration order whenever its input was
produced by `to_python` (last conjunct). -/
theorem declaration_order_preserved {V : Type} (sb : StructBlock V)
    (data files : DataDict) (pfx : String) (value : List (String × V))
    (sv : StructValue V) :
    (sb.value_from_datadict data files pfx).items.map Prod.fst =
      sb.child_blocks.map Prod.fst ∧
    (sb.to_python value).items.map Prod.fst = sb.child_blocks.map Prod.fst ∧
    sv.bound_blocks.map Prod.fst = sv.block.child_blocks.map Prod.fst ∧
    sb.get_searchable_content value =
      (sb.child_blocks.map fun p =>
        p.2.get_searchable_content (dictGet value p.1 p.2.meta_default)).flatten ∧
    (∀ res, sb.get_prep_value value = .ok res →
      res.map Prod.fst = value.map Prod.fst) ∧
    (∀ res, sb.get_prep_value (sb.to_python value).items = .ok res →
      res.map Prod.fst = sb.child_blocks.map Prod.fst) := by
  have htp : (sb.to_python value).items.map Prod.fst = sb.child_blocks.map Prod.fst := by
    simp [StructBlock.to_python, List.map_map]
  refine ⟨?_, htp, ?_, rfl, ?_, ?_⟩
  · simp [StructBlock.value_from_datadict, List.map_map]
  · simp [StructValue.bound_blocks, List.map_map]
  · intro res h
    exact prepItems_keys sb.child_blocks value res h
  · intro res h
    rw [prepItems_keys sb.child_blocks (sb.to_python value).items res h, htp]

/-- Witness for C4 (amended) on `sbAB` at concrete inputs. -/
theorem declaration_order_preserved_witness :
    (sbAB.value_from_datadict [("p-a", "xy")] [] "p").items.map Prod.fst = ["a", "b"] ∧
    (sbAB.to_python [("b", (9 : Int))]).items.map Prod.fst = ["a", "b"] ∧
    (StructValue.mk sbAB []).bound_blocks.map Prod.fst = ["a", "b"] ∧
    [("a", (7 : Int)), ("b", 9)].map Prod.fst = ["a", "b"] := by
  obtain ⟨h1, h2, h3, _, _, h6⟩ := declaration_order_preserved sbAB [("p-a", "xy")] [] "p"
    [("b", (9 : Int))] (StructValue.mk sbAB [])
  exact ⟨h1.trans rfl, h2.trans rfl, h3.trans rfl,
    (h6 [("a", (7 : Int)), ("b", 9)] rfl).trans rfl⟩

/-- Counterexample to C5 as stated: on `sbAB`, the declared field `a` is
absent from the input `{b: 2}`, yet `get_prep_value` returns `{b: 2}` —
no entry for `a` (no default substitution) appears in its output. -/
theorem get_prep_value_no_default_counterexample :
    "a" ∈ sbAB.child_blocks.map Prod.fst ∧
    sbAB.get_prep_value [("b", (2 : Int))] = .ok [("b", 2)] ∧
    "a" ∉ [("b", (2 : Int))].map Prod.fst := by
  exact ⟨by decide, rfl, by decide⟩

/-- Claim C5 (amended): for a declared field absent from the input,
`to_python`, `render_form` and `get_searchable_content` substitute the
field's configured default, but `get_prep_value` does not — it iterates
only the input's own entries, so the field is absent from its output
(`value_from_datadict` and `clean` are likewise exempt from defaulting). -/
theorem defaults_policy {V : Type} (sb : StructBlock V) (value : List (String × V))
    (pfx : String) (n : String) (c : ChildBlock V)
    (hm : (n, c) ∈ sb.child_blocks)
    (hn : (sb.child_blocks.map Prod.fst).Nodup)
    (habs : value.lookup n = none) :
    (sb.to_python value).items.lookup n = some (c.to_python c.meta_default) ∧
    sb.render_form value pfx [] = .ok (renderFormHtml sb value pfx []) ∧
    c.render_form c.meta_default (pfx ++ "-" ++ n) none ∈
      renderFormChildren sb value pfx [] ∧
    List.Sublist (c.get_searchable_content c.meta_default)
      (sb.get_searchable_content value) ∧
    (∀ res, sb.get_prep_value value = .ok res → res.lookup n = none) := by
  have hlc : sb.child_blocks.lookup n = some c :=
    lookup_eq_some_of_mem_nodup hn hm
  have hdg : dictGet value n c.meta_default = c.meta_default := by
    unfold dictGet
    rw [habs]
  refine ⟨?_, rfl, ?_, ?_, ?_⟩
  · unfold StructBlock.to_python
    rw [lookup_map_keyed (fun k b => b.to_python (dictGet value k b.meta_default))
      sb.child_blocks n, hlc]
    simp [hdg]
  · refine List.mem_map.mpr ⟨(n, c), hm, ?_⟩
    simp [hdg, List.lookup]
  · unfold StructBlock.get_searchable_content
    refine List.sublist_flatten_of_mem ?_
    refine List.mem_map.mpr ⟨(n, c), hm, ?_⟩
    simp [hdg]
  · intro res h
    rw [lookup_none_iff, prepItems_keys sb.child_blocks value res h, ← lookup_none_iff]
    exact habs

/-- Witness for C5 (amended) on `sbAB` with field `a` (default 7) absent
from the input `{b: 2}`. -/
theorem defaults_policy_witness :
    (sbAB.to_python [("b", (2 : Int))]).items.lookup "a" =
      some ((intChild 7).to_python (intChild 7).meta_default) ∧
    (intChild 7).render_form (intChild 7).meta_default ("p" ++ "-" ++ "a") none ∈
      renderFormChildren sbAB [("b", (2 : Int))] "p" [] ∧
    List.Sublist ((intChild 7).get_searchable_content (intChild 7).meta_default)
      (sbAB.get_searchable_content [("b", (2 : Int))]) ∧
    [("b", (2 : Int))].lookup "a" = none := by
  obtain ⟨h1, _, h3, h4, h5⟩ := defaults_policy sbAB [("b", (2 : Int))] "p" "a" (intChild 7)
    (List.mem_cons_self _ _) (by decide) rfl
  exact ⟨h1, h3, h4, h5 [("b", (2 : Int))] rfl⟩

/-- Counterexample to C6 as stated: on the struct value `{}` over `sbAB`,
`bound_blocks` binds each absent field to `None` (`Option.none`), not to
the field's configured default (7 and 5) as `boundBlocksClaimed` — the
spec's wording — would. -/
theorem bound_blocks_default_counterexample :
    ((StructValue.mk sbAB []).bound_blocks.map fun p => (p.1, p.2.value)) =
      [("a", (none : Option Int)), ("b", none)] ∧
    ((boundBlocksClaimed (StructValue.mk sbAB [])).map fun p => (p.1, p.2.value)) =
      [("a", some (7 : Int)), ("b", some 5)] ∧
    [("a", (none : Option Int)), ("b", none)] ≠ [("a", some (7 : Int)), ("b", some 5)] := by
  exact ⟨rfl, rfl, by decide⟩

/-- Claim C6 (amended): `bound_blocks` yields an ordered mapping with one
entry per declared field in declaration order, pairing each field
definition with `self.get(name)` — the instance's resolved value, or `None`
(not the field's default) when the field is absent from the instance.
(The `cached_property` memoization is an operational caching property with
no observable content in this pure embedding.) -/
theorem bound_blocks_binding {V : Type} (sv : StructValue V) (n : String)
    (c : ChildBlock V)
    (hm : (n, c) ∈ sv.block.child_blocks)
    (hn : (sv.block.child_blocks.map Prod.fst).Nodup) :
    sv.bound_blocks.map Prod.fst = sv.block.child_blocks.map Prod.fst ∧
    sv.bound_blocks.lookup n = some (c.bind (sv.items.lookup n)) ∧
    (sv.items.lookup n = none → sv.bound_blocks.lookup n = some (c.bind none)) := by
  have hlc : sv.block.child_blocks.lookup n = some c :=
    lookup_eq_some_of_mem_nodup hn hm
  have hlk : sv.bound_blocks.lookup n = some (c.bind (sv.items.lookup n)) := by
    unfold StructValue.bound_blocks
    rw [lookup_map_keyed (fun k b => b.bind (sv.items.lookup k)) sv.block.child_blocks n, hlc]
    rfl
  refine ⟨?_, hlk, ?_⟩
  · simp [StructValue.bound_blocks, List.map_map]
  · intro habs
    rw [hlk, habs]

/-- Witness for C6 (amended) on the struct value `{a: 4}` over `sbAB`:
field `a` is bound to its value, field `b` (absent) to `None`. -/
theorem bound_blocks_binding_witness :
    (StructValue.mk sbAB [("a", (4 : Int))]).bound_blocks.map Prod.fst = ["a", "b"] ∧
    (StructValue.mk sbAB [("a", (4 : Int))]).bound_blocks.lookup "a" =
      some ((intChild 7).bind (some 4)) ∧
    (StructValue.mk sbAB [("a", (4 : Int))]).bound_blocks.lookup "b" =
      some ((intChild 5).bind none) := by
  obtain ⟨ha1, ha2, _⟩ := bound_blocks_binding (StructValue.mk sbAB [("a", (4 : Int))])
    "a" (intChild 7) (List.mem_cons_self _ _) (by decide)
  obtain ⟨_, _, hb3⟩ := bound_blocks_binding (StructValue.mk sbAB [("a", (4 : Int))])
    "b" (intChild 5) (by exact List.mem_cons_of_mem _ (List.mem_cons_self _ _)) (by decide)
  exact ⟨ha1.trans rfl, ha2, hb3 rfl⟩

/-- Claim C7: merging supplemental `(name, block)` pairs onto a copy of the
base field set is last-write-wins and order-preserving: a supplemental field
whose name already exists silently replaces the earlier definition (after
`set_name`) while keeping the earlier definition's original position (the
key sequence is unchanged), and every other name still resolves as in the
base set.  The base list itself is a value, so it is never mutated. -/
theorem local_blocks_override {V : Type} (base : List (String × ChildBlock V))
    (kwargs : List (String × String)) (label : Option String)
    (n : String) (b : ChildBlock V)
    (hmem : n ∈ base.map Prod.fst) :
    (structInit base [(n, b)] kwargs label).child_blocks.map Prod.fst =
      base.map Prod.fst ∧
    (structInit base [(n, b)] kwargs label).child_blocks.lookup n =
      some (b.set_name n) ∧
    (∀ m, m ≠ n → (structInit base [(n, b)] kwargs label).child_blocks.lookup m =
      base.lookup m) := by
  refine ⟨?_, ?_, ?_⟩
  · exact odSet_keys_of_mem base n (b.set_name n) hmem
  · exact odSet_lookup_self base n (b.set_name n)
  · intro m hm
    exact odSet_lookup_other base n m (b.set_name n) hm

/-- Witness for C7: overriding `a` in the base `[a, b]` keeps the key order
`[a, b]`, resolves `a` to the renamed new block, and leaves `b` as in the
base set. -/
theorem local_blocks_override_witness :
    (structInit [("a", intChild 7), ("b", intChild 5)] [("a", intChild 9)]
      [] none).child_blocks.map Prod.fst = ["a", "b"] ∧
    (structInit [("a", intChild 7), ("b", intChild 5)] [("a", intChild 9)]
      [] none).child_blocks.lookup "a" = some ((intChild 9).set_name "a") ∧
    (structInit [("a", intChild 7), ("b", intChild 5)] [("a", intChild 9)]
      [] none).child_blocks.lookup "b" =
      [("a", intChild 7), ("b", intChild 5)].lookup "b" := by
  obtain ⟨h1, h2, h3⟩ := local_blocks_override [("a", intChild 7), ("b", intChild 5)]
    [] none "a" (intChild 9) (by decide)
  exact ⟨h1.trans rfl, h2, h3 "b" (by decide)⟩

/-- Claim C8: `deconstruct` — also on a subclass with declaratively-defined
fields (modelled by `structSubclassInit`) — returns the base struct type's
identifier `wagtail.wagtailcore.blocks.StructBlock`, the full ordered
`(name, field-definition)` list, and the original constructor kwargs; and
it does so for every struct descriptor instance. -/
theorem deconstruct_reports_base {V : Type}
    (declared_blocks local_blocks : List (String × ChildBlock V))
    (kwargs : List (String × String)) (label : Option String) :
    (structSubclassInit declared_blocks local_blocks kwargs label).deconstruct =
      ("wagtail.wagtailcore.blocks.StructBlock",
        (structSubclassInit declared_blocks local_blocks kwargs label).child_blocks,
        kwargs) ∧
    (∀ sb : StructBlock V, sb.deconstruct =
      ("wagtail.wagtailcore.blocks.StructBlock", sb.child_blocks,
        sb.constructor_kwargs)) := by
  exact ⟨rfl, fun sb => rfl⟩

end Wagtail
